import Mathlib

set_option maxRecDepth 40000

/-!
Verification development for the EGI-STAT classification-and-scoring pipeline.

The definitions below are a shallow embedding of the Python sources:
  backend/core/tag_system_v2.py      (TagSystem, DAY_TYPES)
  backend/core/auto_categorizer.py   (CommitCategorizer)
  backend/core/github_client.py      (CommitCache, GitHubMultiRepoClient)
  backend/core/egi_productivity_v7.py (cognitive load, productivity index, analyzer)

Modelling conventions:
- Python strings are processed as `List Char`; the few regular expressions whose
  behaviour matters (bracket tag, conventional-commit head, emoji range, WIP word
  search) are implemented directly; the open-ended keyword/file-path pattern tables
  are kept as data and the regex engine `re.search` is a parameter
  `search : String → String → Bool` of the categorizer, so every theorem holds for
  any engine.
- Python floats are modelled as exact rationals (all constants involved are exact
  in binary floating point and no rounding-sensitive arithmetic occurs), except the
  log-based cognitive-load/productivity metrics which live in `ℝ` with `Real.log`.
- `datetime` values are integer timestamps (seconds); `timedelta(days=1)` is 86400;
  `.isoformat()` is an injective rendering to `String`.
- The sqlite cache is a list of entries; `sha256` cache keys are modelled by keying
  on the (repo, since, until) triple itself (the hash is injective on the encoded
  triple up to collisions, which are ignored).
- Network traffic is an oracle `Api`; each oracle invocation counts as one network
  call.  The per-commit stats/files sub-fetches of `_parse_commit` are folded into
  the branch-listing payload (`RawCommit.stats`/`RawCommit.files`, `none` modelling
  a failed sub-fetch), which does not affect whether a run makes zero calls.
-/

/-! ## Generic helpers (Python built-ins) -/

/-- `str.lower` restricted to the ASCII range (all taxonomy aliases are ASCII or
emoji, on which Python `lower` is also the identity). -/
def lowerStr (s : String) : String := String.mk (s.data.map Char.toLower)

/-- `str.strip()`: drop whitespace from both ends. -/
def stripChars (l : List Char) : List Char :=
  ((l.dropWhile Char.isWhitespace).reverse.dropWhile Char.isWhitespace).reverse

/-- `sep in hay` for strings: substring containment. -/
def containsSub (hay needle : List Char) : Bool :=
  match hay with
  | [] => needle.isEmpty
  | c :: rest => needle.isPrefixOf (c :: rest) || containsSub rest needle

/-- `str.split(sep)` for a one-character separator. -/
def splitOnChar (sep : Char) : List Char → List (List Char)
  | [] => [[]]
  | c :: rest =>
    let r := splitOnChar sep rest
    if c == sep then [] :: r
    else
      match r with
      | [] => [[c]]
      | first :: others => (c :: first) :: others

/-- Python `max(iterable, key=...)`: the first element with maximal key. -/
def pyMaxBy {α β : Type} [LinearOrder β] (key : α → β) (l : List α) : Option α :=
  l.foldl (fun acc x =>
    match acc with
    | none => some x
    | some b => if key b < key x then some x else some b) none

/-! ## tag_system_v2.py -/

namespace TagSystem

/-- `TagConfig` dataclass. -/
structure TagConfig where
  name : String
  weight : ℚ
  aliases : List String
  descr : String
  color : String
  icon : String
deriving DecidableEq

/-- `TagSystem.TAGS`: the 16-entry insertion-ordered dict of tag configurations. -/
def TAGS : List (String × TagConfig) :=
  [ ("FEAT", ⟨"FEAT", 1.0, ["FEATURE", "✨", "feat", "feat:", "feature:"],
      "New feature implementation", "#10B981", "✨"⟩),
    ("FIX", ⟨"FIX", 1.5, ["fix", "fix:", "FIX:", "🐛", "bugfix"],
      "Bug fix", "#EF4444", "🐛"⟩),
    ("REFACTOR", ⟨"REFACTOR", 2.0, ["RAFACTOR", "♻️", "refactor", "refactor:", "refactoring"],
      "Code refactoring (debt repayment)", "#8B5CF6", "♻️"⟩),
    ("TEST", ⟨"TEST", 1.2, ["test", "test:", "tests", "🧪", "testing"],
      "Testing code", "#06B6D4", "🧪"⟩),
    ("DEBUG", ⟨"DEBUG", 1.3, ["debug", "debug:", "debugging"],
      "Debugging session", "#F59E0B", "🔍"⟩),
    ("DOC", ⟨"DOC", 0.8, ["docs", "DOCS", "doc:", "docs:", "📚", "documentation"],
      "Documentation", "#3B82F6", "📚"⟩),
    ("CONFIG", ⟨"CONFIG", 0.7, ["config", "config:", "configuration", "🔧"],
      "Configuration changes", "#6B7280", "🔧"⟩),
    ("CHORE", ⟨"CHORE", 0.6, ["chore", "chore:", "🔨", "maintenance"],
      "Maintenance tasks", "#9CA3AF", "🔨"⟩),
    ("I18N", ⟨"I18N", 0.7, ["i18n", "I18N", "i18n:", "🌍", "translation", "locale"],
      "Internationalization", "#14B8A6", "🌍"⟩),
    ("PERF", ⟨"PERF", 1.4, ["perf", "PERF", "perf:", "performance", "⚡"],
      "Performance optimization", "#FBBF24", "⚡"⟩),
    ("SECURITY", ⟨"SECURITY", 1.8, ["security", "SECURITY", "security:", "🔒", "sec:"],
      "Security fix/enhancement", "#DC2626", "🔒"⟩),
    ("WIP", ⟨"WIP", 0.3, ["wip", "WIP", "wip:", "🚧", "work in progress"],
      "Work in progress", "#F97316", "🚧"⟩),
    ("REVERT", ⟨"REVERT", 0.5, ["revert", "REVERT", "revert:", "⏪"],
      "Revert previous commit", "#EF4444", "⏪"⟩),
    ("MERGE", ⟨"MERGE", 0.4, ["merge", "MERGE", "Merge branch", "Merge pull request"],
      "Merge commit", "#8B5CF6", "🔀"⟩),
    ("DEPLOY", ⟨"DEPLOY", 0.8, ["deploy", "DEPLOY", "deployment", "🚀"],
      "Deployment", "#10B981", "🚀"⟩),
    ("UPDATE", ⟨"UPDATE", 0.6, ["update", "UPDATE", "updates"],
      "Generic update (needs recategorization)", "#6B7280", "📦"⟩) ]

/-- `dict[k] = v`: overwrite if the key exists, else append. -/
def dictInsert (m : List (String × String)) (k v : String) : List (String × String) :=
  if m.any (fun p => p.1 == k) then
    m.map (fun p => if p.1 == k then (k, v) else p)
  else m ++ [(k, v)]

/-- `dict.get(k)`. -/
def dictGet (m : List (String × String)) (k : String) : Option String :=
  (m.find? (fun p => p.1 == k)).map (fun p => p.2)

/-- `TagSystem._build_alias_map`: canonical name, its lowercase, every alias and
its lowercase, all mapped to the canonical tag.  (The Python class attribute is
built lazily behind an emptiness guard; being deterministic, it is modelled as a
plain definition.) -/
def _ALIAS_MAP : List (String × String) :=
  TAGS.foldl (fun m p =>
    let m := dictInsert m p.1 p.1
    let m := dictInsert m (lowerStr p.1) p.1
    p.2.aliases.foldl (fun m a => dictInsert (dictInsert m a p.1) (lowerStr a) p.1) m) []

/-- Character class of the conventional-commit regex `^([a-zA-Z0-9_-]+):`. -/
def isConvChar (c : Char) : Bool := c.isAlpha || c.isDigit || c == '_' || c == '-'

/-- Leftmost match of `\[([^\]]+)\]` (content of the first bracketed token). -/
def firstBracketContent : List Char → Option (List Char)
  | [] => none
  | '[' :: rest =>
    let content := rest.takeWhile (fun c => c != ']')
    if content.isEmpty then firstBracketContent rest
    else
      match rest.drop content.length with
      | ']' :: _ => some content
      | _ => firstBracketContent rest
  | _ :: rest => firstBracketContent rest

/-- Match of `^([a-zA-Z0-9_-]+):` (conventional-commit head token). -/
def convToken (l : List Char) : Option (List Char) :=
  let run := l.takeWhile isConvChar
  if run.isEmpty then none
  else
    match l.drop run.length with
    | ':' :: _ => some run
    | _ => none

/-- Match of `^([\U0001F300-\U0001F9FF])` (leading pictographic character). -/
def leadingEmoji : List Char → Option Char
  | [] => none
  | c :: _ => if 0x1F300 ≤ c.toNat ∧ c.toNat ≤ 0x1F9FF then some c else none

/-- Python `\w` (ASCII fragment, as used by the `\bWIP\b` boundaries). -/
def isWordChar (c : Char) : Bool := c.isAlphanum || c == '_'

/-- Scan for `\bWIP\b` with `re.IGNORECASE`, tracking the previous character for
the left word boundary. -/
def hasWIPFrom : Option Char → List Char → Bool
  | _, [] => false
  | prev, c :: rest =>
    (c.toLower == 'w' &&
      (match rest with
       | c2 :: c3 :: rest2 =>
         c2.toLower == 'i' && c3.toLower == 'p' &&
           (match prev with | none => true | some p => !(isWordChar p)) &&
           (match rest2 with | [] => true | n :: _ => !(isWordChar n))
       | _ => false))
    || hasWIPFrom (some c) rest

/-- `re.search(r'\bWIP\b', msg, re.IGNORECASE)` as a Boolean. -/
def hasWIP (l : List Char) : Bool := hasWIPFrom none l

/-- Strategy 1 of `parse_tag`: first bracketed token resolved through the alias
map (the Python code falls through when the lookup fails, which `Option.bind`
reproduces). -/
def tryBracket (msg : List Char) : Option String :=
  (firstBracketContent msg).bind (fun content =>
    dictGet _ALIAS_MAP (String.mk (stripChars content)))

/-- Strategy 2 of `parse_tag`: conventional-commit head resolved through the
alias map. -/
def tryConv (msg : List Char) : Option String :=
  (convToken msg).bind (fun run =>
    dictGet _ALIAS_MAP (String.mk (stripChars run)))

/-- Strategy 3 of `parse_tag`: leading emoji resolved through the alias map. -/
def tryEmoji (msg : List Char) : Option String :=
  (leadingEmoji msg).bind (fun e => dictGet _ALIAS_MAP (String.mk [e]))

/-- `TagSystem.parse_tag`: five ordered strategies, returning the canonical tag
(or `none`) together with the confidence score. -/
def parse_tag (commit_message : String) : Option String × ℚ :=
  match tryBracket commit_message.data with
  | some t => (some t, 1.0)
  | none =>
    match tryConv commit_message.data with
    | some t => (some t, 1.0)
    | none =>
      match tryEmoji commit_message.data with
      | some t => (some t, 0.95)
      | none =>
        if List.isPrefixOf "Merge ".data commit_message.data then (some "MERGE", 1.0)
        else if hasWIP commit_message.data then (some "WIP", 0.9)
        else (none, 0.0)

/-- `TagSystem.TAGS.get(tag_name)`. -/
def tagsGet (tag_name : String) : Option TagConfig :=
  (TAGS.find? (fun p => p.1 == tag_name)).map (fun p => p.2)

/-- `TagSystem.get_weight`: the tag weight, defaulting to 0.5 for unknown tags. -/
def get_weight (tag_name : String) : ℚ :=
  match tagsGet tag_name with
  | some config => config.weight
  | none => 0.5

/-- `TagSystem.get_all_tags`. -/
def get_all_tags : List String := TAGS.map (fun p => p.1)

/-! ### DAY_TYPES (day-type rule table) -/

/-- `stats.get(tag, 0)` over a tag-percentage dict. -/
def pget (stats : List (String × ℚ)) (k : String) : ℚ :=
  match stats.find? (fun p => p.1 == k) with
  | some p => p.2
  | none => 0

/-- One entry of the `DAY_TYPES` table. -/
structure DayTypeConfig where
  descr : String
  criteria : List (String × ℚ) → Bool
  multiplier : ℚ
  icon : String

/-- `DAY_TYPES`: the ordered day-type rule table (the `MIXED` icon character is
the corrupted two-replacement-character sequence present in the source file). -/
def DAY_TYPES : List (String × DayTypeConfig) :=
  [ ("REFACTORING", ⟨"Debt Repayment Day",
      fun stats => decide (pget stats "REFACTOR" > 20) || decide (pget stats "FIX" > 50),
      1.5, "🔧"⟩),
    ("BUG_FIXING", ⟨"Bug Extermination Day",
      fun stats => decide (pget stats "FIX" > 40) && decide (pget stats "FIX" ≤ 50),
      1.3, "🐛"⟩),
    ("FEATURE_DEV", ⟨"Feature Building Day",
      fun stats => decide (pget stats "FEAT" > 50), 1.0, "✨"⟩),
    ("TESTING", ⟨"Quality Assurance Day",
      fun stats => decide (pget stats "TEST" > 40), 1.1, "🧪"⟩),
    ("MAINTENANCE", ⟨"Maintenance Day",
      fun stats => decide (pget stats "CHORE" > 40), 0.8, "🔨"⟩),
    ("MIXED", ⟨"Mixed Activities", fun _ => true, 1.0, "��"⟩) ]

end TagSystem

/-! ## auto_categorizer.py -/

namespace AutoCat

open TagSystem

/-- `CategorizationResult` dataclass. -/
structure CategorizationResult where
  tag : String
  confidence : ℚ
  method : String
  reasoning : String
deriving DecidableEq

/-- `CommitCategorizer.KEYWORD_RULES`: regex pattern strings per tag. -/
def KEYWORD_RULES : List (String × List String) :=
  [ ("FIX", ["\\b(fix|bug|crash|error|resolve|patch|hotfix)\\b",
             "\\b(null\\s+pointer|memory\\s+leak|race\\s+condition)\\b",
             "\\b(broken|failing|failed)\\b"]),
    ("FEAT", ["\\b(add|implement|create|new|feature)\\b",
              "\\b(introduce|support\\s+for)\\b"]),
    ("REFACTOR", ["\\b(refactor|reorganize|restructure|simplify|cleanup|clean\\s+up)\\b",
                  "\\b(improve\\s+code|code\\s+quality)\\b"]),
    ("DOC", ["\\b(doc|documentation|readme|comment|javadoc)\\b",
             "\\b(update\\s+docs|add\\s+docs)\\b"]),
    ("TEST", ["\\b(test|spec|coverage|unit\\s+test|integration\\s+test)\\b"]),
    ("CONFIG", ["\\b(config|configuration|env|environment|settings)\\b",
                "\\b(webpack|babel|eslint|prettierrc)\\b"]),
    ("I18N", ["\\b(translation|locale|i18n|internationalization)\\b",
              "\\b(language\\s+file|localization)\\b"]),
    ("PERF", ["\\b(performance|optimize|optimization|speed|cache|caching)\\b",
              "\\b(faster|improve\\s+performance)\\b"]),
    ("SECURITY", ["\\b(security|vulnerability|xss|csrf|sql\\s+injection)\\b",
                  "\\b(auth|authentication|authorization|permission)\\b",
                  "\\b(sanitize|escape|validate\\s+input)\\b"]),
    ("CHORE", ["\\b(chore|maintenance|housekeeping|dependencies|deps)\\b",
               "\\b(update\\s+packages|bump\\s+version)\\b"]),
    ("DEPLOY", ["\\b(deploy|deployment|release|publish)\\b",
                "\\b(production|staging)\\b"]),
    ("WIP", ["\\bWIP\\b",
             "\\b(work\\s+in\\s+progress|incomplete|ongoing)\\b"]),
    ("REVERT", ["\\b(revert|rollback|undo)\\b"]) ]

/-- `CommitCategorizer.FILE_PATH_RULES`. -/
def FILE_PATH_RULES : List (String × List String) :=
  [ ("TEST", ["tests?/", "spec/", "\\.test\\.(js|ts|py)$", "\\.spec\\.(js|ts)$"]),
    ("DOC", ["docs?/", "README", "\\.md$", "CHANGELOG"]),
    ("CONFIG", ["config/", "\\.env", "webpack\\.config", "\\.yml$", "\\.yaml$"]),
    ("I18N", ["lang/", "locale/", "translations?/", "i18n/"]),
    ("DEPLOY", ["deploy/", "\\.github/workflows/", "Dockerfile", "docker-compose"]) ]

/-- `CommitCategorizer.DIFF_RULES`: the three content predicates, translated
directly (substring tests and newline count). -/
def DIFF_RULES : List (String × (String → Bool)) :=
  [ ("REFACTOR", fun diff =>
      containsSub diff.data "class".data && containsSub diff.data "def".data &&
        decide (diff.data.count '\n' > 50)),
    ("PERF", fun diff =>
      containsSub (lowerStr diff).data "cache".data ||
        containsSub (lowerStr diff).data "optimize".data),
    ("SECURITY", fun diff =>
      containsSub diff.data "password".data || containsSub diff.data "token".data ||
        containsSub diff.data "secret".data) ]

/-- `CommitCategorizer._match_keywords`, parameterized by the regex engine
`search pattern text` (the message is lower-cased before searching, as in the
source). -/
def _match_keywords (search : String → String → Bool) (message : String) :
    Option CategorizationResult :=
  let message_lower := lowerStr message
  let scores := KEYWORD_RULES.filterMap (fun rule =>
    let matched := rule.2.filter (fun p => search p message_lower)
    if matched.isEmpty then none else some (rule.1, matched))
  match pyMaxBy (fun s => s.2.length) scores with
  | none => none
  | some best =>
    some ⟨best.1, min (0.6 + (best.2.length : ℚ) * 0.15) 0.95, "keyword",
      "Keywords matched: " ++ String.intercalate ", " (best.2.take 2)⟩

/-- `CommitCategorizer._match_file_paths`: per tag, count files matched by any
pattern (the inner `break` makes each file count at most once). -/
def _match_file_paths (search : String → String → Bool) (files : List String) :
    Option CategorizationResult :=
  if files.isEmpty then none
  else
    let scores := FILE_PATH_RULES.filterMap (fun rule =>
      let hits := files.countP (fun f => rule.2.any (fun p => search p f))
      if hits == 0 then none else some (rule.1, hits))
    match pyMaxBy (fun s => s.2) scores with
    | none => none
    | some best =>
      let match_frac : ℚ := (best.2 : ℚ) / (files.length : ℚ)
      some ⟨best.1, min (0.7 + match_frac * 0.25) 0.95, "file_path",
        toString best.2 ++ "/" ++ toString files.length ++ " files match pattern"⟩

/-- `CommitCategorizer._match_diff_patterns`: first matching diff predicate. -/
def _match_diff_patterns (diff : String) : Option CategorizationResult :=
  (DIFF_RULES.find? (fun rule => rule.2 diff)).map (fun rule =>
    ⟨rule.1, 0.75, "diff", "Diff pattern suggests this category"⟩)

/-- Vote total of a tag in `_combine_signals` (`tag_votes[tag]`). -/
def tagVotes (results : List CategorizationResult) (t : String) : ℚ :=
  (results.filterMap (fun r => if r.tag == t then some r.confidence else none)).sum

/-- The methods that voted for a tag in `_combine_signals`. -/
def agreeingMethods (results : List CategorizationResult) (t : String) : List String :=
  (results.filter (fun r => r.tag == t)).map (fun r => r.method)

/-- The combined confidence of `_combine_signals`: the vote total averaged over
the contributing stages, boosted by 0.15 (capped at 0.95) when at least two
methods agree. -/
def combinedConfidence (results : List CategorizationResult) (t : String) : ℚ :=
  let combined := tagVotes results t / (results.length : ℚ)
  if 1 < (agreeingMethods results t).length then min (combined + 0.15) 0.95 else combined

/-- `CommitCategorizer._combine_signals`. -/
def _combine_signals (keyword_result file_result diff_result : Option CategorizationResult) :
    Option CategorizationResult :=
  let results := [keyword_result, file_result, diff_result].filterMap id
  let keys := results.foldl (fun acc r => if acc.contains r.tag then acc else acc ++ [r.tag]) []
  match pyMaxBy (tagVotes results) keys with
  | none => none
  | some best_tag =>
    some ⟨best_tag, combinedConfidence results best_tag, "combined",
      "Combined signals: " ++ String.intercalate ", " (agreeingMethods results best_tag)⟩

/-- `CommitCategorizer._categorize_with_llm`, reduced to its response handling:
`resp = none` models the client call raising (the body is wrapped in a blanket
`except` returning `None`); `pyFloat` models Python `float(str)` (`none` =
`ValueError`, likewise caught); the parsed tag must be a member of the taxonomy. -/
def llmParse (pyFloat : String → Option ℚ) (resp : Option String) :
    Option CategorizationResult :=
  match resp with
  | none => none
  | some content =>
    let parts := splitOnChar '|' (stripChars content.data)
    if parts.length ≥ 3 then
      let tag := String.mk (stripChars (parts.getD 0 []))
      match pyFloat (String.mk (stripChars (parts.getD 1 []))) with
      | none => none
      | some confidence =>
        if get_all_tags.contains tag then
          some ⟨tag, confidence, "llm", String.mk (stripChars (parts.getD 2 []))⟩
        else none
    else none

/-- A stage result gated by its confidence threshold (`result and
result.confidence >= thr`). -/
def meets (r : Option CategorizationResult) (thr : ℚ) : Option CategorizationResult :=
  match r with
  | some x => if thr ≤ x.confidence then some x else none
  | none => none

/-- The UNTAGGED fallback result of `categorize`. -/
def fallbackResult : CategorizationResult :=
  ⟨"UNTAGGED", 0.0, "fallback", "No clear category detected"⟩

/-- Step 6 of `categorize`: the optional external classifier (queried only when
`use_llm` is set and a client is configured), falling back to UNTAGGED. -/
def step6 (pyFloat : String → Option ℚ) (use_llm : Bool) (llm : Option (Option String)) :
    CategorizationResult :=
  match (if use_llm then llm else none) with
  | some resp =>
    match llmParse pyFloat resp with
    | some r => r
    | none => fallbackResult
  | none => fallbackResult

/-- Step 5 of `categorize`: combine the rule-based signals (threshold 0.65),
else step 6.  (`categorize` is decomposed into one definition per stage; the
stage results are recomputed rather than let-bound as in the source — the
computations are pure, so the value is unchanged.) -/
def step5 (search : String → String → Bool) (pyFloat : String → Option ℚ)
    (message : String) (files : List String) (diff : String)
    (use_llm : Bool) (llm : Option (Option String)) : CategorizationResult :=
  match meets (_combine_signals (_match_keywords search message)
      (_match_file_paths search files)
      (if diff.isEmpty then none else _match_diff_patterns diff)) 0.65 with
  | some r => r
  | none => step6 pyFloat use_llm llm

/-- Step 4 of `categorize`: the diff stage (threshold 0.75, skipped when no
diff is supplied), else step 5. -/
def step4 (search : String → String → Bool) (pyFloat : String → Option ℚ)
    (message : String) (files : List String) (diff : String)
    (use_llm : Bool) (llm : Option (Option String)) : CategorizationResult :=
  match meets (if diff.isEmpty then none else _match_diff_patterns diff) 0.75 with
  | some r => r
  | none => step5 search pyFloat message files diff use_llm llm

/-- Step 3 of `categorize`: the file-path stage (threshold 0.8), else step 4. -/
def step3 (search : String → String → Bool) (pyFloat : String → Option ℚ)
    (message : String) (files : List String) (diff : String)
    (use_llm : Bool) (llm : Option (Option String)) : CategorizationResult :=
  match meets (_match_file_paths search files) 0.8 with
  | some r => r
  | none => step4 search pyFloat message files diff use_llm llm

/-- Step 2 of `categorize`: the keyword stage (threshold 0.7), else step 3. -/
def step2 (search : String → String → Bool) (pyFloat : String → Option ℚ)
    (message : String) (files : List String) (diff : String)
    (use_llm : Bool) (llm : Option (Option String)) : CategorizationResult :=
  match meets (_match_keywords search message) 0.7 with
  | some r => r
  | none => step3 search pyFloat message files diff use_llm llm

/-- `CommitCategorizer.categorize`.  `llm : Option (Option String)` models the
optional external classifier: `none` = no client configured, `some none` = the
call raised, `some (some content)` = the response text. -/
def categorize (search : String → String → Bool) (pyFloat : String → Option ℚ)
    (message : String) (files : List String) (diff : String)
    (use_llm : Bool) (llm : Option (Option String)) : CategorizationResult :=
  match parse_tag message with
  | (some t, confidence) => ⟨t, confidence, "explicit", "Explicit tag found in message"⟩
  | (none, _) => step2 search pyFloat message files diff use_llm llm

end AutoCat

/-! ## github_client.py -/

namespace GH

/-- `CommitData` dataclass (dates as integer timestamps). -/
structure CommitData where
  sha : String
  message : String
  author : String
  author_email : String
  date : ℤ
  repository : String
  files_changed : List String
  additions : ℕ
  deletions : ℕ
  total_changes : ℕ
deriving DecidableEq

/-- One commit as delivered by the upstream API: the per-commit stats/files
sub-fetches of `_parse_commit` are part of the payload, `none` modelling the
sub-fetch raising (handled by defaulting to 0 / `[]`). -/
structure RawCommit where
  sha : String
  message : String
  author : String
  author_email : String
  date : ℤ
  stats : Option (ℕ × ℕ)
  files : Option (List String)

/-- `GithubException`: HTTP status plus response data. -/
structure GHError where
  status : ℕ
  data : String
deriving DecidableEq

/-- The rate-limit test of `_fetch_commits_from_api`:
`e.status == 403 and 'rate limit' in str(e.data).lower()`. -/
def isRateLimit (e : GHError) : Bool :=
  e.status == 403 && containsSub (lowerStr e.data).data "rate limit".data

/-- The upstream commit source as a deterministic oracle; each invocation of a
field counts as one network call. -/
structure Api where
  getRepo : String → Except GHError Unit
  getBranches : String → Except GHError (List String)
  getBranchCommits : String → String → ℤ → ℤ → Except GHError (List RawCommit)

/-- `_parse_commit`: build `CommitData`, defaulting failed stats to 0 and failed
file listings to `[]`. -/
def _parse_commit (c : RawCommit) (repo_name : String) : CommitData :=
  let additions := match c.stats with | some s => s.1 | none => 0
  let deletions := match c.stats with | some s => s.2 | none => 0
  let files := match c.files with | some f => f | none => []
  ⟨c.sha, c.message, c.author, c.author_email, c.date, repo_name, files,
    additions, deletions, additions + deletions⟩

/-- The deduplicating insertion loop of `_fetch_commits_from_api`
(`commits_by_sha`, keyed by SHA, insertion-ordered). -/
def insertUnique (acc : List CommitData) (repo_name : String) (cs : List RawCommit) :
    List CommitData :=
  cs.foldl (fun a c =>
    if a.any (fun x => x.sha == c.sha) then a else a ++ [_parse_commit c repo_name]) acc

/-- `_fetch_commits_from_api`: list the branches (a failure here — including a
rate-limit error — is re-raised), then per branch list commits in
[since, until + 1 day) (a per-branch failure is skipped), deduplicating by SHA.
Returns the result together with the number of network calls made. -/
def _fetch_commits_from_api (api : Api) (repo_name : String) (since until_ : ℤ) :
    Except GHError (List CommitData) × ℕ :=
  match api.getBranches repo_name with
  | .error e => (.error e, 1)
  | .ok branches =>
    let commits := branches.foldl (fun a b =>
      match api.getBranchCommits repo_name b since (until_ + 86400) with
      | .error _ => a
      | .ok cs => insertUnique a repo_name cs) []
    (.ok commits, 1 + branches.length)

/-- `self.client.get_repo(repo_name)` followed by `_fetch_commits_from_api`
(the two calls grouped under one `try` in `_get_repo_commits`). -/
def repoFetch (api : Api) (repo_name : String) (since until_ : ℤ) :
    Except GHError (List CommitData) × ℕ :=
  match api.getRepo repo_name with
  | .error e => (.error e, 1)
  | .ok _ =>
    let r := _fetch_commits_from_api api repo_name since until_
    (r.1, 1 + r.2)

/-- One row of the sqlite `commits` table. -/
structure CacheEntry where
  repo : String
  since : String
  until_ : String
  data : List CommitData
  timestamp : ℤ
deriving DecidableEq

/-- The cache database. -/
abbrev Cache := List CacheEntry

/-- Key equality (`_make_key` hashes `repo:since:until`; the key is modelled as
the triple itself). -/
def keyMatches (e : CacheEntry) (repo since until_ : String) : Bool :=
  e.repo == repo && e.since == since && e.until_ == until_

/-- `CommitCache.get`: `none` on a missing row or one older than the max age
(`(now - ts)/3600 > max_age_hours`, compared exactly). -/
def cacheGet (c : Cache) (repo since until_ : String) (max_age_hours now : ℤ) :
    Option (List CommitData) :=
  match c.find? (fun e => keyMatches e repo since until_) with
  | none => none
  | some e => if max_age_hours * 3600 < now - e.timestamp then none else some e.data

/-- `CommitCache.set` (`INSERT OR REPLACE`). -/
def cacheSet (c : Cache) (repo since until_ : String) (data : List CommitData) (now : ℤ) :
    Cache :=
  if c.any (fun e => keyMatches e repo since until_) then
    c.map (fun e => if keyMatches e repo since until_ then ⟨repo, since, until_, data, now⟩ else e)
  else c ++ [⟨repo, since, until_, data, now⟩]

/-- `datetime.isoformat()`, modelled as an injective rendering of the timestamp. -/
def isoStr (t : ℤ) : String := toString t

/-- `_get_repo_commits`: consult the cache (note the truthiness test
`if cached:` — an empty cached list is treated like a miss), otherwise fetch;
any `GithubException` escaping the fetch — the re-raised rate-limit error
included — is caught here and turned into `[]`; a successful fetch is cached.
Returns (commits, updated cache, network calls). -/
def _get_repo_commits (api : Api) (cache : Cache) (now : ℤ) (repo_name : String)
    (since until_ : ℤ) (use_cache : Bool) (cache_max_age_hours : ℤ) :
    List CommitData × Cache × ℕ :=
  let since_str := isoStr since
  let until_str := isoStr until_
  let cachedHit : Option (List CommitData) :=
    if use_cache then
      match cacheGet cache repo_name since_str until_str cache_max_age_hours now with
      | some l => if l.isEmpty then none else some l
      | none => none
    else none
  match cachedHit with
  | some l => (l, cache, 0)
  | none =>
    match repoFetch api repo_name since until_ with
    | (.error _, n) => ([], cache, n)
    | (.ok commits, n) =>
      (commits,
       if use_cache then cacheSet cache repo_name since_str until_str commits now else cache,
       n)

/-- The per-repository loop of `get_commits` (commit lists concatenated in
repository order, cache threaded through, calls summed). -/
def getCommitsAux (api : Api) (now since until_ : ℤ) (use_cache : Bool)
    (cache_max_age_hours : ℤ) : List String → Cache → List CommitData × Cache × ℕ
  | [], cache => ([], cache, 0)
  | repo_name :: rest, cache =>
    let step := _get_repo_commits api cache now repo_name since until_ use_cache
      cache_max_age_hours
    let restResult := getCommitsAux api now since until_ use_cache cache_max_age_hours
      rest step.2.1
    (step.1 ++ restResult.1, restResult.2.1, step.2.2 + restResult.2.2)

/-- `get_commits`: all repositories, then a stable ascending sort by date
(`all_commits.sort(key=lambda c: c.date)`). -/
def get_commits (api : Api) (cache : Cache) (now : ℤ) (repositories : List String)
    (since until_ : ℤ) (use_cache : Bool) (cache_max_age_hours : ℤ) :
    List CommitData × Cache × ℕ :=
  let r := getCommitsAux api now since until_ use_cache cache_max_age_hours
    repositories cache
  (r.1.mergeSort (fun a b => a.date ≤ b.date), r.2.1, r.2.2)

end GH

/-! ## egi_productivity_v7.py -/

namespace Prod7

open TagSystem AutoCat GH

/-- `classify_day_type`: first entry of `DAY_TYPES` whose criteria accept the
tag-percentage distribution (the final `MIXED` entry always accepts; the
trailing Python `return` is unreachable but kept as the `none` arm). -/
def classify_day_type (tag_percentages : List (String × ℚ)) : String × String :=
  match DAY_TYPES.find? (fun p => p.2.criteria tag_percentages) with
  | some p => (p.1, p.2.icon)
  | none => ("MIXED", "📦")

/-- `DAY_TYPES[day_type]['multiplier']` (total with default 1.0; the lookup in
the source can never miss since `classify_day_type` only returns table keys). -/
def dayTypeMultiplier (day_type : String) : ℚ :=
  match DAY_TYPES.find? (fun p => p.1 == day_type) with
  | some p => p.2.multiplier
  | none => 1.0

/-- `calculate_cognitive_load`: 1.0 for zero commits, otherwise the clamped
log-scaled formula `max(1.0, min(3.5, 1 + ((ln(l+1)+ln(f+1)+ln(c+1))/3)/2))`. -/
noncomputable def calculate_cognitive_load (commits files lines_touched : ℕ) : ℝ :=
  if commits = 0 then 1.0
  else
    let li := Real.log ((lines_touched : ℝ) + 1)
    let fm := Real.log ((files : ℝ) + 1)
    let dp := Real.log ((commits : ℝ) + 1)
    let cl := (li + fm + dp) / 3.0
    let cl_normalized := 1.0 + cl / 2.0
    max 1.0 (min 3.5 cl_normalized)

/-- The spec's sentence for the cognitive load, verbatim:
`clamp(1.0, 3.5, 1.0 + (ln(linesTouched+1) + ln(filesTouched+1) + ln(commitCount+1)) / 6.0)`.
(Written from the spec's words, for comparison with the source function.) -/
noncomputable def cognitiveLoadSpec (commits files lines_touched : ℕ) : ℝ :=
  max 1.0 (min 3.5
    (1.0 + (Real.log ((lines_touched : ℝ) + 1) + Real.log ((files : ℝ) + 1) +
      Real.log ((commits : ℝ) + 1)) / 6.0))

/-- `calculate_productivity_index`: `(w*10 + |net|/10) * multiplier / load`,
with a zero load replaced by 1.0 first. -/
noncomputable def calculate_productivity_index (commits_weighted : ℝ) (lines_net : ℤ)
    (cognitive_load : ℝ) (day_type_multiplier : ℝ) : ℝ :=
  let cl := if cognitive_load = 0 then 1.0 else cognitive_load
  let base_score := commits_weighted * 10.0 + ((|lines_net| : ℤ) : ℝ) / 10.0
  (base_score * day_type_multiplier) / cl

/-- `DayStats` dataclass (dates as day numbers; dicts as insertion-ordered
association lists). -/
structure DayStats where
  date : ℤ
  repos_commits : List (String × ℕ)
  repos_lines_net : List (String × ℤ)
  commits : ℕ
  commits_weighted : ℚ
  files_modified : ℕ
  lines_added : ℕ
  lines_removed : ℕ
  lines_touched : ℕ
  lines_net : ℤ
  tags : List (String × ℕ)
  day_type : String
  day_type_icon : String
  cognitive_load : ℝ
  productivity_index : ℝ

/-- `datetime.date()`: calendar day of a timestamp (floor division by 86400). -/
def toDay (t : ℤ) : ℤ := Int.ediv t 86400

/-- The per-commit tag of `analyze_day`: the explicit parse when it finds a tag,
otherwise `categorize(message, files_changed)` (so `diff=""`, `use_llm=False`,
and no external client is consulted — the float parser is therefore never
reached and is fixed to `fun _ => none`). -/
def assignTag (search : String → String → Bool) (c : CommitData) : String :=
  match parse_tag c.message with
  | (some t, _) => t
  | (none, _) => (categorize search (fun _ => none) c.message c.files_changed "" false none).tag

/-- `Counter[t] += 1` on an insertion-ordered association list. -/
def counterBump (m : List (String × ℕ)) (t : String) : List (String × ℕ) :=
  if m.any (fun p => p.1 == t) then
    m.map (fun p => if p.1 == t then (p.1, p.2 + 1) else p)
  else m ++ [(t, 1)]

/-- `Counter[t] += z` for integer-valued counters. -/
def counterAdd (m : List (String × ℤ)) (t : String) (z : ℤ) : List (String × ℤ) :=
  if m.any (fun p => p.1 == t) then
    m.map (fun p => if p.1 == t then (p.1, p.2 + z) else p)
  else m ++ [(t, z)]

/-- The tag-counting loop of `analyze_day`: fold over the day's commits keeping
(tag counter, weighted commit total). -/
def tagLoop (search : String → String → Bool) (day_commits : List CommitData) :
    List (String × ℕ) × ℚ :=
  day_commits.foldl (fun acc c =>
    let t := assignTag search c
    (counterBump acc.1 t, acc.2 + TagSystem.get_weight t)) ([], 0)

/-- `set.update(...)` collecting distinct file paths (only the cardinality of
the set is consumed downstream). -/
def distinctFiles (day_commits : List CommitData) : List String :=
  day_commits.foldl (fun s c =>
    c.files_changed.foldl (fun s2 f => if s2.contains f then s2 else s2 ++ [f]) s) []

/-- `ProductivityAnalyzer.analyze_day` (the `self.all_repos` bookkeeping, a pure
side effect on the analyzer object, is not part of the returned value). -/
noncomputable def analyze_day (search : String → String → Bool) (date : ℤ)
    (all_commits : List CommitData) : DayStats :=
  let day_commits := all_commits.filter (fun c => toDay c.date == date)
  if day_commits.isEmpty then
    ⟨date, [], [], 0, 0.0, 0, 0, 0, 0, 0, [], "MIXED", "📦", 1.0, 0.0⟩
  else
    let counted := tagLoop search day_commits
    let tag_counter := counted.1
    let commits_weighted := counted.2
    let tag_percentages := tag_counter.map (fun p =>
      (p.1, ((p.2 : ℚ) / (day_commits.length : ℚ)) * 100))
    let repos_commits := day_commits.foldl (fun m c => counterBump m c.repository) []
    let repos_lines_net := day_commits.foldl (fun m c =>
      counterAdd m c.repository ((c.additions : ℤ) - (c.deletions : ℤ))) []
    let all_files := distinctFiles day_commits
    let lines_added := (day_commits.map (fun c => c.additions)).sum
    let lines_removed := (day_commits.map (fun c => c.deletions)).sum
    let lines_touched := lines_added + lines_removed
    let lines_net := (lines_added : ℤ) - (lines_removed : ℤ)
    let dayType := classify_day_type tag_percentages
    let day_type_multiplier := dayTypeMultiplier dayType.1
    let cognitive_load := calculate_cognitive_load day_commits.length all_files.length
      lines_touched
    let productivity := calculate_productivity_index (commits_weighted : ℝ) lines_net
      cognitive_load (day_type_multiplier : ℝ)
    ⟨date, repos_commits, repos_lines_net, day_commits.length, commits_weighted,
      all_files.length, lines_added, lines_removed, lines_touched, lines_net,
      tag_counter, dayType.1, dayType.2, cognitive_load, productivity⟩

end Prod7

/-! ## Views and concrete oracles used by the verification -/

namespace GH

/-- The commit list a repository's fetch produces (empty on error), used to
state cache idempotence. -/
def repoFetchList (api : Api) (repo_name : String) (since until_ : ℤ) : List CommitData :=
  match (repoFetch api repo_name since until_).1 with
  | .ok cs => cs
  | .error _ => []

/-- An upstream whose branch listing is rate-limited (the repository object
itself resolves). -/
def rlApi : Api :=
  ⟨fun _ => .ok (), fun _ => .error ⟨403, "API rate limit exceeded"⟩,
   fun _ _ _ _ => .ok []⟩

/-- An upstream with one branch and no commits in the window. -/
def emptyApi : Api :=
  ⟨fun _ => .ok (), fun _ => .ok ["main"], fun _ _ _ _ => .ok []⟩

/-- An upstream with two branches both reaching the same commit `aaa` (the
second branch also reaches `bbb`). -/
def dupApi : Api :=
  ⟨fun _ => .ok (), fun _ => .ok ["main", "dev"],
   fun _ b _ _ =>
     if b == "main" then .ok [⟨"aaa", "[FIX] x", "au", "e", 50, some (3, 1), some ["f1"]⟩]
     else .ok [⟨"aaa", "[FIX] x", "au", "e", 50, some (3, 1), some ["f1"]⟩,
               ⟨"bbb", "msg", "au", "e", 10, none, none⟩]⟩

end GH

/-- A regex engine that matches nothing (one admissible instantiation of the
`search` parameter, used for concrete runs where no keyword or path pattern
applies). -/
def noMatchEngine : String → String → Bool := fun _ _ => false

/-- A float parser knowing only the literal needed by concrete runs (one
admissible instantiation of the `pyFloat` parameter). -/
def pyFloat50 : String → Option ℚ := fun s => if s = "5.0" then some 5 else none

/-! ## Theorems -/

open TagSystem AutoCat GH Prod7

/-- C1 (amended): when the first bracketed token of a commit message, stripped of
surrounding whitespace, is exactly a key of the alias index (a canonical tag
name, a declared alias, or the lowercase form of either), `parse_tag` returns
the corresponding canonical tag with confidence 1.0.  (The lookup is not fully
case-insensitive and only the first bracketed token is consulted.) -/
theorem claim_C1 (msg : String) (content : List Char) (canonical : String)
    (h1 : firstBracketContent msg.data = some content)
    (h2 : dictGet _ALIAS_MAP (String.mk (stripChars content)) = some canonical) :
    parse_tag msg = (some canonical, 1.0) := by
  unfold parse_tag tryBracket
  rw [h1]
  simp only [Option.some_bind]
  rw [h2]

/-- Witness for C1 at the message `[FIX] resolve null pointer`. -/
theorem claim_C1_witness :
    firstBracketContent "[FIX] resolve null pointer".data = some "FIX".data
    ∧ parse_tag "[FIX] resolve null pointer" = (some "FIX", 1.0) :=
  ⟨rfl, claim_C1 "[FIX] resolve null pointer" "FIX".data "FIX" rfl rfl⟩

/-- Counterexample to C1 as stated: `FeAtUrE` is a casing of the known alias
`FEATURE` (which maps to `FEAT`), yet the bracketed token does not resolve —
the lookup is only by exact key, so `parse_tag` finds no tag at all. -/
theorem claim_C1_cex :
    dictGet _ALIAS_MAP "FEATURE" = some "FEAT"
    ∧ parse_tag "[FeAtUrE] add dashboard" = (none, 0.0) :=
  ⟨rfl, rfl⟩

/-- C2 (amended): a message beginning with the literal `Merge ` resolves to the
MERGE category with confidence 1.0 provided its first bracketed token (if any)
does not resolve through the alias index; a resolving bracketed token is
consulted first and wins. -/
theorem claim_C2 (msg : String)
    (h1 : List.isPrefixOf "Merge ".data msg.data = true)
    (h2 : tryBracket msg.data = none) :
    parse_tag msg = (some "MERGE", 1.0) := by
  obtain ⟨rest, hrest⟩ : ∃ rest, msg.data = "Merge ".data ++ rest := by
    obtain ⟨t, ht⟩ := (List.isPrefixOf_iff_prefix.mp h1)
    exact ⟨t, ht.symm⟩
  have hconv : tryConv msg.data = none := by rw [hrest]; rfl
  have hemoji : tryEmoji msg.data = none := by rw [hrest]; rfl
  unfold parse_tag
  rw [h2, hconv, hemoji, h1]
  rfl

/-- Witness for C2 at the message `Merge branch develop into main`. -/
theorem claim_C2_witness :
    parse_tag "Merge branch develop into main" = (some "MERGE", 1.0) :=
  claim_C2 "Merge branch develop into main" rfl rfl

/-- Counterexample to C2 as stated: a message beginning with `Merge ` that also
carries a resolvable bracketed token is classified by the bracket strategy
(which runs first), not as MERGE. -/
theorem claim_C2_cex :
    List.isPrefixOf "Merge ".data "Merge [FIX] conflict resolution".data = true
    ∧ parse_tag "Merge [FIX] conflict resolution" = (some "FIX", 1.0) :=
  ⟨rfl, rfl⟩

/-- C6 (amended): for a positive commit count the cognitive load equals the
spec's `clamp(1.0, 3.5, 1 + (ln(lines+1)+ln(files+1)+ln(commits+1))/6)` formula;
for commit count 0 it is exactly 1.0; and it always lies in [1.0, 3.5]. -/
theorem claim_C6 (c f l : ℕ) :
    (c ≠ 0 → calculate_cognitive_load c f l = cognitiveLoadSpec c f l)
    ∧ (c = 0 → calculate_cognitive_load c f l = 1.0)
    ∧ 1.0 ≤ calculate_cognitive_load c f l
    ∧ calculate_cognitive_load c f l ≤ 3.5 := by
  by_cases hc : c = 0
  · have h1 : calculate_cognitive_load c f l = 1.0 := by
      unfold calculate_cognitive_load
      rw [if_pos hc]
    exact ⟨fun h => absurd hc h, fun _ => h1, by rw [h1], by rw [h1]; norm_num⟩
  · have hform : calculate_cognitive_load c f l
        = max 1.0 (min 3.5 (1.0 + (Real.log ((l : ℝ) + 1) + Real.log ((f : ℝ) + 1)
            + Real.log ((c : ℝ) + 1)) / 3.0 / 2.0)) := by
      unfold calculate_cognitive_load
      rw [if_neg hc]
    refine ⟨fun _ => ?_, fun h => absurd h hc, ?_, ?_⟩
    · rw [hform]
      unfold cognitiveLoadSpec
      congr 1
      congr 1
      ring
    · rw [hform]
      exact le_max_left _ _
    · rw [hform]
      exact max_le (by norm_num) (min_le_left _ _)

/-- Witness for C6 at 3 commits, 2 files, 100 lines. -/
theorem claim_C6_witness :
    calculate_cognitive_load 3 2 100 = cognitiveLoadSpec 3 2 100 :=
  (claim_C6 3 2 100).1 (by decide)

/-- Counterexample to C6 as stated: at commit count 0 with 100 files and 1000
lines touched, the code returns exactly 1.0 while the claimed clamp formula is
strictly greater than 1, so the computed load does not equal the formula. -/
theorem claim_C6_cex :
    calculate_cognitive_load 0 100 1000 = 1.0
    ∧ cognitiveLoadSpec 0 100 1000 ≠ 1.0 := by
  constructor
  · rfl
  · unfold cognitiveLoadSpec
    have h1 : (0 : ℝ) < Real.log (((1000 : ℕ) : ℝ) + 1) := Real.log_pos (by norm_num)
    have h2 : (0 : ℝ) < Real.log (((100 : ℕ) : ℝ) + 1) := Real.log_pos (by norm_num)
    have h3 : Real.log (((0 : ℕ) : ℝ) + 1) = 0 := by norm_num
    have hv : (1.0 : ℝ) < 1.0 + (Real.log (((1000 : ℕ) : ℝ) + 1)
        + Real.log (((100 : ℕ) : ℝ) + 1) + Real.log (((0 : ℕ) : ℝ) + 1)) / 6.0 := by
      rw [h3]
      have : (0 : ℝ) < (Real.log (((1000 : ℕ) : ℝ) + 1)
          + Real.log (((100 : ℕ) : ℝ) + 1) + 0) / 6.0 := by positivity
      linarith
    have hm : (1.0 : ℝ) < min 3.5 (1.0 + (Real.log (((1000 : ℕ) : ℝ) + 1)
        + Real.log (((100 : ℕ) : ℝ) + 1) + Real.log (((0 : ℕ) : ℝ) + 1)) / 6.0) :=
      lt_min (by norm_num) hv
    exact ne_of_gt (lt_of_lt_of_le hm (le_max_right _ _))

/-- C7: for a nonzero cognitive load the productivity index equals
`(weighted*10 + |net|/10) * multiplier / load`, and the index is invariant
under negating the net line count. -/
theorem claim_C7 (w : ℝ) (net : ℤ) (cl m : ℝ) (h : cl ≠ 0) :
    calculate_productivity_index w net cl m
      = (w * 10 + ((|net| : ℤ) : ℝ) / 10) * m / cl
    ∧ calculate_productivity_index w (-net) cl m
      = calculate_productivity_index w net cl m := by
  unfold calculate_productivity_index
  rw [if_neg h]
  constructor
  · norm_num
  · rw [abs_neg]

/-- Witness for C7: a day with −500 net lines scores the same as one with +500
(identical weighted commits 3, load 1.5, multiplier 1). -/
theorem claim_C7_witness :
    calculate_productivity_index 3 (-500) 1.5 1
      = calculate_productivity_index 3 500 1.5 1 :=
  (claim_C7 3 500 1.5 1 (by norm_num)).2

/-- The weighted-commit accumulator of `analyze_day` sums the tag weights of the
processed commits (the tag-counter component does not influence it). -/
theorem tagLoop_weight_general (search : String → String → Bool) :
    ∀ (l : List CommitData) (init : List (String × ℕ) × ℚ),
      (List.foldl (fun acc c =>
          let t := assignTag search c
          (counterBump acc.1 t, acc.2 + get_weight t)) init l).2
        = init.2 + (l.map (fun c => get_weight (assignTag search c))).sum := by
  intro l
  induction l with
  | nil => intro init; simp
  | cons c rest ih =>
    intro init
    rw [List.foldl_cons, ih]
    simp
    ring

/-- C10: `get_weight` returns the default 0.5 for every name outside the
taxonomy; `UNTAGGED` is outside the taxonomy; and the weighted commit total of
`analyze_day` is the sum of `get_weight` over the assigned tags of the day's
commits — so each UNTAGGED commit contributes 0.5 to it, not 0. -/
theorem claim_C10 :
    (∀ t : String, tagsGet t = none → get_weight t = 0.5)
    ∧ tagsGet "UNTAGGED" = none
    ∧ ∀ (search : String → String → Bool) (date : ℤ) (cs : List CommitData),
        (analyze_day search date cs).commits_weighted
          = ((cs.filter (fun c => toDay c.date == date)).map
              (fun c => get_weight (assignTag search c))).sum := by
  refine ⟨fun t ht => ?_, rfl, fun search date cs => ?_⟩
  · unfold get_weight
    rw [ht]
  · unfold analyze_day
    by_cases hdc : (cs.filter (fun c => toDay c.date == date)).isEmpty
    · rw [if_pos hdc]
      rw [List.isEmpty_iff.mp hdc]
      norm_num
    · rw [if_neg hdc]
      show (tagLoop search _).2 = _
      unfold tagLoop
      rw [tagLoop_weight_general]
      simp

/-- Witness for C10: the UNTAGGED fallback tag weighs 0.5. -/
theorem claim_C10_witness : get_weight "UNTAGGED" = 0.5 :=
  claim_C10.1 "UNTAGGED" rfl

/-- C3: the code's behaviour when a repository's branch listing is
rate-limited.  The fetch layer does produce a distinct rate-limit error
(`status == 403` with `rate limit` in the data, re-raised by
`_fetch_commits_from_api`), but `_get_repo_commits` catches every
`GithubException` alike and converts it to an empty list, so `get_commits`
returns an empty result (after 2 network calls) instead of propagating the
rate-limit error to its caller. -/
theorem claim_C3 :
    isRateLimit ⟨403, "API rate limit exceeded"⟩ = true
    ∧ (repoFetch rlApi "owner/repo" 0 86400).1
        = Except.error ⟨403, "API rate limit exceeded"⟩
    ∧ get_commits rlApi [] 0 ["owner/repo"] 0 86400 true 24 = ([], [], 2) := by
  refine ⟨rfl, rfl, ?_⟩
  show (_, _, _) = _
  rw [show (getCommitsAux rlApi 0 0 86400 true 24 ["owner/repo"] []).1 = [] from rfl]
  rw [List.mergeSort_nil]
  rfl

/-- The confidence attached by `parse_tag` is always in [0, 1]. -/
theorem parse_tag_conf_bounds (msg : String) :
    0 ≤ (parse_tag msg).2 ∧ (parse_tag msg).2 ≤ 1 := by
  unfold parse_tag
  split
  · norm_num
  · split
    · norm_num
    · split
      · norm_num
      · split_ifs <;> norm_num

/-- A stage result passing its threshold is the stage's result. -/
theorem meets_eq_some {o : Option CategorizationResult} {thr : ℚ} {r : CategorizationResult}
    (h : meets o thr = some r) : o = some r := by
  cases o with
  | none => exact Option.noConfusion h
  | some x =>
    simp only [meets] at h
    split_ifs at h
    · exact h

/-- Keyword-stage results carry a confidence in [0, 0.95]. -/
theorem match_keywords_bounds {search : String → String → Bool} {m : String}
    {r : CategorizationResult} (h : _match_keywords search m = some r) :
    0 ≤ r.confidence ∧ r.confidence ≤ 0.95 := by
  simp only [_match_keywords] at h
  split at h
  · exact Option.noConfusion h
  · obtain rfl := Option.some.inj h
    exact ⟨le_min (by positivity) (by norm_num), min_le_right _ _⟩

/-- File-path-stage results carry a confidence in [0, 0.95]. -/
theorem match_file_paths_bounds {search : String → String → Bool} {files : List String}
    {r : CategorizationResult} (h : _match_file_paths search files = some r) :
    0 ≤ r.confidence ∧ r.confidence ≤ 0.95 := by
  simp only [_match_file_paths] at h
  split at h
  · exact Option.noConfusion h
  · split at h
    · exact Option.noConfusion h
    · obtain rfl := Option.some.inj h
      exact ⟨le_min (by positivity) (by norm_num), min_le_right _ _⟩

/-- Diff-stage results carry confidence exactly 0.75. -/
theorem match_diff_bounds {diff : String} {r : CategorizationResult}
    (h : _match_diff_patterns diff = some r) : r.confidence = 0.75 := by
  unfold _match_diff_patterns at h
  rcases hf : DIFF_RULES.find? (fun rule => rule.2 diff) with _ | rule
  · rw [hf] at h
    exact Option.noConfusion h
  · rw [hf, Option.map_some'] at h
    obtain rfl := Option.some.inj h
    rfl

/-- A vote total is nonnegative when every contributing confidence is. -/
theorem tagVotes_nonneg {results : List CategorizationResult}
    (hb : ∀ x ∈ results, 0 ≤ x.confidence) (t : String) : 0 ≤ tagVotes results t := by
  unfold tagVotes
  apply List.sum_nonneg
  intro q hq
  simp only [List.mem_filterMap] at hq
  obtain ⟨x, hx, hxq⟩ := hq
  split_ifs at hxq
  obtain rfl := Option.some.inj hxq
  exact hb x hx

/-- Unfolding one commit of the vote total. -/
theorem tagVotes_cons (x : CategorizationResult) (rest : List CategorizationResult)
    (t : String) :
    tagVotes (x :: rest) t
      = (if x.tag == t then x.confidence else 0) + tagVotes rest t := by
  unfold tagVotes
  rw [List.filterMap_cons]
  by_cases hxt : (x.tag == t) = true
  · simp [hxt]
  · simp [hxt]

/-- A vote total is at most 0.95 per contributing result. -/
theorem tagVotes_le (t : String) :
    ∀ (results : List CategorizationResult),
      (∀ x ∈ results, 0 ≤ x.confidence ∧ x.confidence ≤ 0.95) →
      tagVotes results t ≤ 0.95 * (results.length : ℚ) := by
  intro results
  induction results with
  | nil =>
    intro _
    simp [tagVotes]
  | cons x rest ih =>
    intro hb
    have hx := hb x (by simp)
    have ih' := ih (fun y hy => hb y (by simp [hy]))
    rw [tagVotes_cons, List.length_cons]
    push_cast
    by_cases hxt : (x.tag == t) = true
    · rw [if_pos hxt]
      linarith [hx.1, hx.2]
    · rw [if_neg hxt]
      linarith

/-- `pyMaxBy` only returns an element for a nonempty list. -/
theorem pyMaxBy_some_of {α β : Type} [LinearOrder β] {key : α → β} {l : List α} {b : α}
    (h : pyMaxBy key l = some b) : l ≠ [] := by
  intro hl
  subst hl
  exact Option.noConfusion h

/-- The combined confidence lies in [0, 0.95] when every contributing stage's
does. -/
theorem combinedConfidence_bounds {results : List CategorizationResult} {t : String}
    (hres : ∀ x ∈ results, 0 ≤ x.confidence ∧ x.confidence ≤ 0.95)
    (hne : results ≠ []) :
    0 ≤ combinedConfidence results t ∧ combinedConfidence results t ≤ 0.95 := by
  have hlenQ : (0 : ℚ) < (results.length : ℚ) := by
    exact_mod_cast List.length_pos.mpr hne
  have hcc0 : 0 ≤ tagVotes results t / (results.length : ℚ) :=
    div_nonneg (tagVotes_nonneg (fun x hx => (hres x hx).1) _) (le_of_lt hlenQ)
  have hcc1 : tagVotes results t / (results.length : ℚ) ≤ 0.95 := by
    rw [div_le_iff₀ hlenQ]
    exact tagVotes_le _ _ hres
  unfold combinedConfidence
  split_ifs
  · exact ⟨le_min (by linarith) (by norm_num), min_le_right _ _⟩
  · exact ⟨hcc0, hcc1⟩

/-- Combined-stage results carry a confidence in [0, 0.95] when every
contributing stage does. -/
theorem combine_bounds {ks fs ds : Option CategorizationResult} {r : CategorizationResult}
    (hk : ∀ x, ks = some x → 0 ≤ x.confidence ∧ x.confidence ≤ 0.95)
    (hf : ∀ x, fs = some x → 0 ≤ x.confidence ∧ x.confidence ≤ 0.95)
    (hd : ∀ x, ds = some x → 0 ≤ x.confidence ∧ x.confidence ≤ 0.95)
    (h : _combine_signals ks fs ds = some r) :
    0 ≤ r.confidence ∧ r.confidence ≤ 0.95 := by
  have hres : ∀ x ∈ [ks, fs, ds].filterMap id, 0 ≤ x.confidence ∧ x.confidence ≤ 0.95 := by
    intro x hx
    simp only [List.mem_filterMap, List.mem_cons, List.not_mem_nil, or_false, id] at hx
    obtain ⟨o, ho, hox⟩ := hx
    rcases ho with rfl | rfl | rfl
    · exact hk x hox
    · exact hf x hox
    · exact hd x hox
  simp only [_combine_signals] at h
  split at h
  · exact Option.noConfusion h
  · rename_i best_tag heq
    obtain rfl := Option.some.inj h
    have hne : ([ks, fs, ds].filterMap id) ≠ [] := by
      intro hnil
      rw [hnil] at heq
      exact Option.noConfusion heq
    exact combinedConfidence_bounds hres hne

/-- Results of the (skippable) diff stage stay within [0, 0.95]. -/
theorem diff_signal_bounds {diff : String} {y : CategorizationResult}
    (hy : (if diff.isEmpty then none else _match_diff_patterns diff) = some y) :
    0 ≤ y.confidence ∧ y.confidence ≤ 0.95 := by
  by_cases hd : diff.isEmpty
  · rw [if_pos hd] at hy
    exact absurd hy (by simp)
  · rw [if_neg hd] at hy
    rw [match_diff_bounds hy]
    norm_num

/-- Step 6 keeps the confidence in [0, 1] when accepted external suggestions
do. -/
theorem step6_bounds {pyFloat : String → Option ℚ} {use_llm : Bool}
    {llm : Option (Option String)}
    (hllm : ∀ resp x, llm = some resp → llmParse pyFloat resp = some x →
      0 ≤ x.confidence ∧ x.confidence ≤ 1) :
    0 ≤ (step6 pyFloat use_llm llm).confidence
    ∧ (step6 pyFloat use_llm llm).confidence ≤ 1 := by
  rcases hif : (if use_llm then llm else none) with _ | resp
  · simp only [step6, hif]
    norm_num [fallbackResult]
  · rcases hp : llmParse pyFloat resp with _ | x
    · simp only [step6, hif, hp]
      norm_num [fallbackResult]
    · have hl : llm = some resp := by
        by_cases hu : use_llm
        · rwa [if_pos hu] at hif
        · rw [if_neg hu] at hif
          exact Option.noConfusion hif
      simp only [step6, hif, hp]
      exact hllm resp x hl hp

/-- Step 5 keeps the confidence in [0, 1]. -/
theorem step5_bounds {search : String → String → Bool} {pyFloat : String → Option ℚ}
    {message : String} {files : List String} {diff : String} {use_llm : Bool}
    {llm : Option (Option String)}
    (hllm : ∀ resp x, llm = some resp → llmParse pyFloat resp = some x →
      0 ≤ x.confidence ∧ x.confidence ≤ 1) :
    0 ≤ (step5 search pyFloat message files diff use_llm llm).confidence
    ∧ (step5 search pyFloat message files diff use_llm llm).confidence ≤ 1 := by
  rcases hc : meets (_combine_signals (_match_keywords search message)
      (_match_file_paths search files)
      (if diff.isEmpty then none else _match_diff_patterns diff)) 0.65 with _ | r
  · simp only [step5, hc]
    exact step6_bounds hllm
  · simp only [step5, hc]
    have hb := combine_bounds
      (fun y hy => match_keywords_bounds hy)
      (fun y hy => match_file_paths_bounds hy)
      (fun y hy => diff_signal_bounds hy)
      (meets_eq_some hc)
    exact ⟨hb.1, by linarith [hb.2]⟩

/-- Step 4 keeps the confidence in [0, 1]. -/
theorem step4_bounds {search : String → String → Bool} {pyFloat : String → Option ℚ}
    {message : String} {files : List String} {diff : String} {use_llm : Bool}
    {llm : Option (Option String)}
    (hllm : ∀ resp x, llm = some resp → llmParse pyFloat resp = some x →
      0 ≤ x.confidence ∧ x.confidence ≤ 1) :
    0 ≤ (step4 search pyFloat message files diff use_llm llm).confidence
    ∧ (step4 search pyFloat message files diff use_llm llm).confidence ≤ 1 := by
  rcases hc : meets (if diff.isEmpty then none else _match_diff_patterns diff) 0.75
      with _ | r
  · simp only [step4, hc]
    exact step5_bounds hllm
  · simp only [step4, hc]
    have hb := diff_signal_bounds (meets_eq_some hc)
    exact ⟨hb.1, by linarith [hb.2]⟩

/-- Step 3 keeps the confidence in [0, 1]. -/
theorem step3_bounds {search : String → String → Bool} {pyFloat : String → Option ℚ}
    {message : String} {files : List String} {diff : String} {use_llm : Bool}
    {llm : Option (Option String)}
    (hllm : ∀ resp x, llm = some resp → llmParse pyFloat resp = some x →
      0 ≤ x.confidence ∧ x.confidence ≤ 1) :
    0 ≤ (step3 search pyFloat message files diff use_llm llm).confidence
    ∧ (step3 search pyFloat message files diff use_llm llm).confidence ≤ 1 := by
  rcases hc : meets (_match_file_paths search files) 0.8 with _ | r
  · simp only [step3, hc]
    exact step4_bounds hllm
  · simp only [step3, hc]
    have hb := match_file_paths_bounds (meets_eq_some hc)
    exact ⟨hb.1, by linarith [hb.2]⟩

/-- Step 2 keeps the confidence in [0, 1]. -/
theorem step2_bounds {search : String → String → Bool} {pyFloat : String → Option ℚ}
    {message : String} {files : List String} {diff : String} {use_llm : Bool}
    {llm : Option (Option String)}
    (hllm : ∀ resp x, llm = some resp → llmParse pyFloat resp = some x →
      0 ≤ x.confidence ∧ x.confidence ≤ 1) :
    0 ≤ (step2 search pyFloat message files diff use_llm llm).confidence
    ∧ (step2 search pyFloat message files diff use_llm llm).confidence ≤ 1 := by
  rcases hc : meets (_match_keywords search message) 0.7 with _ | r
  · simp only [step2, hc]
    exact step3_bounds hllm
  · simp only [step2, hc]
    have hb := match_keywords_bounds (meets_eq_some hc)
    exact ⟨hb.1, by linarith [hb.2]⟩

/-- C4 (amended): every CategorizationResult produced by `categorize` has
confidence in [0, 1], provided any accepted external-classifier suggestion has
a parsed confidence in [0, 1] (the external stage forwards that value without
validating it; all rule-based stages stay within [0, 0.95]). -/
theorem claim_C4 (search : String → String → Bool) (pyFloat : String → Option ℚ)
    (message : String) (files : List String) (diff : String)
    (use_llm : Bool) (llm : Option (Option String))
    (hllm : ∀ resp x, llm = some resp → llmParse pyFloat resp = some x →
      0 ≤ x.confidence ∧ x.confidence ≤ 1) :
    0 ≤ (categorize search pyFloat message files diff use_llm llm).confidence
    ∧ (categorize search pyFloat message files diff use_llm llm).confidence ≤ 1 := by
  rcases hpt : parse_tag message with ⟨t, q⟩
  cases t with
  | some tag =>
    simp only [categorize, hpt]
    have hb := parse_tag_conf_bounds message
    rw [hpt] at hb
    exact hb
  | none =>
    simp only [categorize, hpt]
    exact step2_bounds hllm

/-- Witness for C4 with no external classifier configured. -/
theorem claim_C4_witness :
    0 ≤ (categorize noMatchEngine pyFloat50 "zzzz qqqq" [] "" false none).confidence
    ∧ (categorize noMatchEngine pyFloat50 "zzzz qqqq" [] "" false none).confidence ≤ 1 :=
  claim_C4 noMatchEngine pyFloat50 "zzzz qqqq" [] "" false none
    (fun _ _ h _ => Option.noConfusion h)

/-- Counterexample to C4 as stated: an external classifier responding
`FIX | 5.0 | wrong` yields a CategorizationResult whose confidence 5 lies
outside [0, 1] — the parsed value is forwarded without range validation. -/
theorem claim_C4_cex :
    (categorize noMatchEngine pyFloat50 "zzzz qqqq" [] "" true
        (some (some "FIX | 5.0 | wrong"))).confidence = 5
    ∧ ¬ ((5 : ℚ) ≤ 1) :=
  ⟨rfl, by norm_num⟩

/-- C9: failures of the optional external classifier are treated as no
suggestion and never escape `categorize`: (1) a raised call yields no result;
(2) a malformed response (fewer than 3 `|` fields), an unparsable confidence, or
a tag outside the taxonomy yields no result; (3) a failing response leaves
`categorize` exactly as if no classifier were configured; (4) when every stage
fails or falls below its threshold and the classifier yields nothing,
`categorize` returns UNTAGGED with confidence 0.0. -/
theorem claim_C9 :
    (∀ pyFloat : String → Option ℚ, llmParse pyFloat none = none)
    ∧ (∀ (pyFloat : String → Option ℚ) (content : String),
        ((splitOnChar '|' (stripChars content.data)).length < 3
          ∨ pyFloat (String.mk (stripChars
              ((splitOnChar '|' (stripChars content.data)).getD 1 []))) = none
          ∨ get_all_tags.contains (String.mk (stripChars
              ((splitOnChar '|' (stripChars content.data)).getD 0 []))) = false)
        → llmParse pyFloat (some content) = none)
    ∧ (∀ (search : String → String → Bool) (pyFloat : String → Option ℚ)
        (message : String) (files : List String) (diff : String) (use_llm : Bool)
        (llm : Option (Option String)) (resp : Option String),
        llm = some resp → llmParse pyFloat resp = none →
        categorize search pyFloat message files diff use_llm llm
          = categorize search pyFloat message files diff use_llm none)
    ∧ (∀ (search : String → String → Bool) (pyFloat : String → Option ℚ)
        (message : String) (files : List String) (diff : String)
        (llm : Option (Option String)),
        (parse_tag message).1 = none →
        meets (_match_keywords search message) 0.7 = none →
        meets (_match_file_paths search files) 0.8 = none →
        meets (if diff.isEmpty then none else _match_diff_patterns diff) 0.75 = none →
        meets (_combine_signals (_match_keywords search message)
          (_match_file_paths search files)
          (if diff.isEmpty then none else _match_diff_patterns diff)) 0.65 = none →
        (∀ resp, llm = some resp → llmParse pyFloat resp = none) →
        categorize search pyFloat message files diff true llm = fallbackResult) := by
  refine ⟨fun _ => rfl, ?_, ?_, ?_⟩
  · intro pyFloat content h
    rcases h with h | h | h
    · simp only [llmParse]
      rw [if_neg (by omega)]
    · by_cases hlen : (splitOnChar '|' (stripChars content.data)).length ≥ 3
      · simp only [llmParse, if_pos hlen, h]
      · simp only [llmParse, if_neg hlen]
    · by_cases hlen : (splitOnChar '|' (stripChars content.data)).length ≥ 3
      · rcases hpf : pyFloat (String.mk (stripChars
            ((splitOnChar '|' (stripChars content.data)).getD 1 []))) with _ | q
        · simp only [llmParse, if_pos hlen, hpf]
        · simp only [llmParse, if_pos hlen, hpf, h, Bool.false_eq_true, if_false]
      · simp only [llmParse, if_neg hlen]
  · intro search pyFloat message files diff use_llm llm resp hl hnone
    subst hl
    cases use_llm with
    | false => rfl
    | true =>
      unfold categorize step2 step3 step4 step5 step6
      simp only [if_pos, hnone]
  · intro search pyFloat message files diff llm h0 hkw hfp hdf hcb hllm
    rcases hpt : parse_tag message with ⟨t, q⟩
    rw [hpt] at h0
    cases t with
    | some tag => exact absurd h0 (by simp)
    | none =>
      unfold categorize step2 step3 step4 step5 step6
      rw [hpt]
      simp only [hkw, hfp, hdf, hcb]
      cases llm with
      | none => rfl
      | some resp =>
        simp only [if_pos, hllm resp rfl]

/-- Witness for C9: with no matching patterns and a raised classifier call,
`categorize` degrades to the UNTAGGED fallback. -/
theorem claim_C9_witness :
    llmParse pyFloat50 none = none
    ∧ categorize noMatchEngine pyFloat50 "zzzz qqqq" [] "" true (some none)
        = fallbackResult := by
  refine ⟨claim_C9.1 pyFloat50,
    claim_C9.2.2.2 noMatchEngine pyFloat50 "zzzz qqqq" [] "" (some none)
      rfl rfl rfl rfl rfl ?_⟩
  intro resp h
  obtain rfl := (Option.some.inj h).symm
  rfl

/-- The cache entry `_get_repo_commits` writes for a repository on a successful
fetch at time `now`. -/
def entryFor (api : Api) (since until_ now : ℤ) (r : String) : CacheEntry :=
  ⟨r, isoStr since, isoStr until_, repoFetchList api r since until_, now⟩

/-- A cache holding no row for a repository misses. -/
theorem cacheGet_none (c : Cache) (r sS uS : String) (maxAge now : ℤ)
    (h : ∀ e ∈ c, (e.repo == r) = false) :
    cacheGet c r sS uS maxAge now = none := by
  unfold cacheGet
  have hf : c.find? (fun e => keyMatches e r sS uS) = none := by
    rw [List.find?_eq_none]
    intro e he
    simp [keyMatches, h e he]
  rw [hf]

/-- Writing a fresh key appends a row. -/
theorem cacheSet_fresh (c : Cache) (r sS uS : String) (data : List CommitData) (now : ℤ)
    (h : ∀ e ∈ c, (e.repo == r) = false) :
    cacheSet c r sS uS data now = c ++ [⟨r, sS, uS, data, now⟩] := by
  unfold cacheSet
  have ha : c.any (fun e => keyMatches e r sS uS) = false := by
    rw [List.any_eq_false]
    intro e he
    simp [keyMatches, h e he]
  simp only [ha, Bool.false_eq_true, if_false]

/-- On a cache miss with a successful fetch, `_get_repo_commits` returns the
fetched list, appends the fresh cache row and spends the fetch's calls. -/
theorem getRepoCommits_miss_ok {api : Api} {cache : Cache} {now since until_ maxAge : ℤ}
    {repo_name : String} {cs : List CommitData}
    (hc : ∀ e ∈ cache, (e.repo == repo_name) = false)
    (hok : (repoFetch api repo_name since until_).1 = Except.ok cs) :
    _get_repo_commits api cache now repo_name since until_ true maxAge
      = (cs, cache ++ [⟨repo_name, isoStr since, isoStr until_, cs, now⟩],
         (repoFetch api repo_name since until_).2) := by
  simp only [_get_repo_commits]
  rw [cacheGet_none cache repo_name (isoStr since) (isoStr until_) maxAge now hc]
  rcases hrf : repoFetch api repo_name since until_ with ⟨res, n⟩
  rw [hrf] at hok
  have hres : res = Except.ok cs := hok
  subst hres
  show (cs, cacheSet cache repo_name (isoStr since) (isoStr until_) cs now, n)
      = (cs, cache ++ [⟨repo_name, isoStr since, isoStr until_, cs, now⟩], n)
  rw [cacheSet_fresh cache repo_name (isoStr since) (isoStr until_) cs now hc]

/-- On a valid, non-empty cache hit, `_get_repo_commits` answers from the cache
with zero network calls. -/
theorem getRepoCommits_hit {api : Api} {cache : Cache} {now since until_ maxAge : ℤ}
    {repo_name : String} {l : List CommitData}
    (h : cacheGet cache repo_name (isoStr since) (isoStr until_) maxAge now = some l)
    (hne : l ≠ []) :
    _get_repo_commits api cache now repo_name since until_ true maxAge = (l, cache, 0) := by
  have hemp : l.isEmpty = false := by
    cases l with
    | nil => exact absurd rfl hne
    | cons x xs => rfl
  simp only [_get_repo_commits]
  rw [h]
  simp only [hemp, Bool.false_eq_true, if_false]
  rfl

/-- First run of the repository loop over an unrelated cache: every repository
fetches, the results are concatenated, and one fresh cache row per repository is
appended. -/
theorem aux_first (api : Api) (since until_ maxAge now : ℤ) :
    ∀ (repos : List String) (cache : Cache),
      repos.Nodup →
      (∀ e ∈ cache, e.repo ∉ repos) →
      (∀ r ∈ repos, ∃ cs, (repoFetch api r since until_).1 = Except.ok cs ∧ cs ≠ []) →
      getCommitsAux api now since until_ true maxAge repos cache
        = ((repos.map (fun r => repoFetchList api r since until_)).join,
           cache ++ repos.map (entryFor api since until_ now),
           (repos.map (fun r => (repoFetch api r since until_).2)).sum) := by
  intro repos
  induction repos with
  | nil =>
    intro cache _ _ _
    simp [getCommitsAux]
  | cons r rest ih =>
    intro cache hnd hc hok
    obtain ⟨cs, hcs, hcsne⟩ := hok r (by simp)
    have hcr : ∀ e ∈ cache, (e.repo == r) = false := by
      intro e he
      have hmem := hc e he
      simp only [List.mem_cons, not_or] at hmem
      exact beq_eq_false_iff_ne.mpr hmem.1
    have hlist : repoFetchList api r since until_ = cs := by
      unfold repoFetchList
      rw [hcs]
    have hstep := @getRepoCommits_miss_ok api cache now since until_ maxAge r cs hcr hcs
    have hc2 : ∀ e ∈ cache ++ [(⟨r, isoStr since, isoStr until_, cs, now⟩ : CacheEntry)],
        e.repo ∉ rest := by
      intro e he
      rcases List.mem_append.mp he with he | he
      · have hmem := hc e he
        simp only [List.mem_cons, not_or] at hmem
        exact hmem.2
      · simp only [List.mem_singleton] at he
        subst he
        exact (List.nodup_cons.mp hnd).1
    have ihr := ih (cache ++ [⟨r, isoStr since, isoStr until_, cs, now⟩])
      (List.nodup_cons.mp hnd).2 hc2 (fun x hx => hok x (by simp [hx]))
    simp only [getCommitsAux]
    rw [hstep]
    simp only
    rw [ihr]
    simp only [List.map_cons, List.join_cons, List.sum_cons, entryFor, hlist]
    rw [List.append_assoc]
    rfl

/-- Second run of the repository loop when every repository has a valid,
non-empty cached row: the cached lists are concatenated, the cache is unchanged
and zero network calls are made. -/
theorem aux_cached (api : Api) (since until_ maxAge now : ℤ) :
    ∀ (repos : List String) (cache : Cache),
      (∀ r ∈ repos,
        cacheGet cache r (isoStr since) (isoStr until_) maxAge now
          = some (repoFetchList api r since until_)
        ∧ repoFetchList api r since until_ ≠ []) →
      getCommitsAux api now since until_ true maxAge repos cache
        = ((repos.map (fun r => repoFetchList api r since until_)).join, cache, 0) := by
  intro repos
  induction repos with
  | nil =>
    intro cache _
    simp [getCommitsAux]
  | cons r rest ih =>
    intro cache hh
    obtain ⟨hget, hne⟩ := hh r (by simp)
    have hstep := @getRepoCommits_hit api cache now since until_ maxAge r
      (repoFetchList api r since until_) hget hne
    simp only [getCommitsAux]
    rw [hstep]
    simp only
    rw [ih cache (fun x hx => hh x (by simp [hx]))]
    simp

/-- The fresh cache rows are found again, repository by repository. -/
theorem find_entries (api : Api) (since until_ now : ℤ) :
    ∀ (repos : List String), repos.Nodup → ∀ r ∈ repos,
      (repos.map (entryFor api since until_ now)).find?
          (fun e => keyMatches e r (isoStr since) (isoStr until_))
        = some (entryFor api since until_ now r) := by
  intro repos
  induction repos with
  | nil =>
    intro _ r hr
    exact absurd hr (List.not_mem_nil r)
  | cons x rest ih =>
    intro hnd r hr
    rcases List.mem_cons.mp hr with rfl | hr2
    · simp only [List.map_cons]
      apply List.find?_cons_of_pos
      simp [keyMatches, entryFor]
    · have hxr : x ≠ r := by
        intro he
        subst he
        exact (List.nodup_cons.mp hnd).1 hr2
      simp only [List.map_cons]
      rw [List.find?_cons_of_neg]
      · exact ih (List.nodup_cons.mp hnd).2 r hr2
      · simp [keyMatches, entryFor, hxr]

/-- C5 (amended): with identical arguments, a second `get_commits` call within
the TTL performs zero network calls, leaves the cache unchanged and returns the
first call's list — provided every repository's fetch succeeded with a
non-empty commit list.  (The cache-hit test `if cached:` treats an empty cached
list as a miss, so a repository whose window holds no commits is re-fetched.) -/
theorem claim_C5 (api : Api) (repos : List String) (since until_ now1 now2 maxAge : ℤ)
    (hnd : repos.Nodup)
    (hok : ∀ r ∈ repos, ∃ cs, (repoFetch api r since until_).1 = Except.ok cs ∧ cs ≠ [])
    (httl : ¬ (maxAge * 3600 < now2 - now1)) :
    get_commits api (get_commits api [] now1 repos since until_ true maxAge).2.1 now2
        repos since until_ true maxAge
      = ((get_commits api [] now1 repos since until_ true maxAge).1,
         (get_commits api [] now1 repos since until_ true maxAge).2.1, 0) := by
  have h1 := aux_first api since until_ maxAge now1 repos [] hnd (by simp) hok
  have e1 : get_commits api [] now1 repos since until_ true maxAge
      = (((repos.map (fun r => repoFetchList api r since until_)).join).mergeSort
           (fun a b => a.date ≤ b.date),
         repos.map (entryFor api since until_ now1),
         (repos.map (fun r => (repoFetch api r since until_).2)).sum) := by
    unfold get_commits
    rw [h1]
    simp
  have hcg : ∀ r ∈ repos,
      cacheGet (repos.map (entryFor api since until_ now1)) r (isoStr since) (isoStr until_)
          maxAge now2
        = some (repoFetchList api r since until_)
      ∧ repoFetchList api r since until_ ≠ [] := by
    intro r hr
    constructor
    · unfold cacheGet
      rw [find_entries api since until_ now1 repos hnd r hr]
      show (if maxAge * 3600 < now2 - now1 then none else some (repoFetchList api r since until_))
          = some (repoFetchList api r since until_)
      rw [if_neg httl]
    · obtain ⟨cs, hcs, hne⟩ := hok r hr
      unfold repoFetchList
      rw [hcs]
      exact hne
  have h2 := aux_cached api since until_ maxAge now2 repos
    (repos.map (entryFor api since until_ now1)) hcg
  have e2 : get_commits api (repos.map (entryFor api since until_ now1)) now2 repos
        since until_ true maxAge
      = (((repos.map (fun r => repoFetchList api r since until_)).join).mergeSort
           (fun a b => a.date ≤ b.date),
         repos.map (entryFor api since until_ now1), 0) := by
    unfold get_commits
    rw [h2]
  rw [e1]
  show get_commits api (repos.map (entryFor api since until_ now1)) now2 repos
        since until_ true maxAge
      = (((repos.map (fun r => repoFetchList api r since until_)).join).mergeSort
           (fun a b => a.date ≤ b.date),
         repos.map (entryFor api since until_ now1), 0)
  exact e2

/-- Witness for C5: one repository whose window holds two commits; the second
call answers entirely from the cache. -/
theorem claim_C5_witness :
    get_commits dupApi (get_commits dupApi [] 0 ["r"] 0 86400 true 24).2.1 1 ["r"]
        0 86400 true 24
      = ((get_commits dupApi [] 0 ["r"] 0 86400 true 24).1,
         (get_commits dupApi [] 0 ["r"] 0 86400 true 24).2.1, 0) :=
  claim_C5 dupApi ["r"] 0 86400 0 1 24 (by simp)
    (fun r hr => by
      obtain rfl := List.mem_singleton.mp hr
      exact ⟨[⟨"aaa", "[FIX] x", "au", "e", 50, "r", ["f1"], 3, 1, 4⟩,
              ⟨"bbb", "msg", "au", "e", 10, "r", [], 0, 0, 0⟩], rfl, by simp⟩)
    (by decide)

/-- Counterexample to C5 as stated: a repository whose window holds no commits
is cached as the empty list; on the second call (1 second later, far inside the
24-hour TTL) the empty cached row is treated as a miss and the repository is
re-fetched with 3 network calls instead of 0. -/
theorem claim_C5_cex :
    cacheGet (get_commits emptyApi [] 0 ["r"] 0 0 true 24).2.1 "r" "0" "0" 24 1 = some []
    ∧ (get_commits emptyApi (get_commits emptyApi [] 0 ["r"] 0 0 true 24).2.1 1 ["r"]
        0 0 true 24).2.2 = 3 :=
  ⟨rfl, rfl⟩

/-- The deduplicating insertion keeps SHAs distinct and labels every record
with the repository. -/
theorem insertUnique_props (repo_name : String) :
    ∀ (cs : List RawCommit) (acc : List CommitData),
      (acc.map (fun c => c.sha)).Nodup → (∀ c ∈ acc, c.repository = repo_name) →
      ((insertUnique acc repo_name cs).map (fun c => c.sha)).Nodup
      ∧ ∀ c ∈ insertUnique acc repo_name cs, c.repository = repo_name := by
  intro cs
  induction cs with
  | nil =>
    intro acc h1 h2
    exact ⟨h1, h2⟩
  | cons c rest ih =>
    intro acc h1 h2
    have hstep : insertUnique acc repo_name (c :: rest)
        = insertUnique (if acc.any (fun x => x.sha == c.sha) then acc
            else acc ++ [_parse_commit c repo_name]) repo_name rest := by
      unfold insertUnique
      rw [List.foldl_cons]
    rw [hstep]
    by_cases hany : acc.any (fun x => x.sha == c.sha) = true
    · rw [if_pos hany]
      exact ih acc h1 h2
    · rw [if_neg hany]
      have hany2 : acc.any (fun x => x.sha == c.sha) = false := by
        simpa using hany
      apply ih
      · rw [List.map_append]
        have hnot : (_parse_commit c repo_name).sha ∉ acc.map (fun x => x.sha) := by
          intro hmem
          simp only [List.mem_map] at hmem
          obtain ⟨x, hx, hxs⟩ := hmem
          have hfalse := List.any_eq_false.mp hany2 x hx
          apply hfalse
          rw [beq_iff_eq]
          exact hxs
        refine List.Nodup.append h1 (List.nodup_singleton _) ?_
        intro a ha hb
        simp only [List.map_cons, List.map_nil, List.mem_singleton] at hb
        subst hb
        exact hnot ha
      · intro x hx
        rcases List.mem_append.mp hx with hx | hx
        · exact h2 x hx
        · simp only [List.mem_singleton] at hx
          subst hx
          rfl

/-- The per-branch loop preserves SHA distinctness and repository labels. -/
theorem branchFold_props (api : Api) (repo_name : String) (since until_ : ℤ) :
    ∀ (branches : List String) (acc : List CommitData),
      (acc.map (fun c => c.sha)).Nodup → (∀ c ∈ acc, c.repository = repo_name) →
      ((branches.foldl (fun a b =>
          match api.getBranchCommits repo_name b since until_ with
          | .error _ => a
          | .ok cs => insertUnique a repo_name cs) acc).map (fun c => c.sha)).Nodup
      ∧ ∀ c ∈ branches.foldl (fun a b =>
          match api.getBranchCommits repo_name b since until_ with
          | .error _ => a
          | .ok cs => insertUnique a repo_name cs) acc, c.repository = repo_name := by
  intro branches
  induction branches with
  | nil =>
    intro acc h1 h2
    exact ⟨h1, h2⟩
  | cons b rest ih =>
    intro acc h1 h2
    simp only [List.foldl_cons]
    rcases hbc : api.getBranchCommits repo_name b since until_ with e | cs
    · simp only [hbc]
      exact ih acc h1 h2
    · simp only [hbc]
      obtain ⟨n1, n2⟩ := insertUnique_props repo_name cs acc h1 h2
      exact ih _ n1 n2

/-- A successful branch scan yields SHA-distinct records labelled with the
repository. -/
theorem fetch_props (api : Api) (repo_name : String) (since until_ : ℤ)
    {cs : List CommitData}
    (h : (_fetch_commits_from_api api repo_name since until_).1 = Except.ok cs) :
    ((cs.map (fun c => c.sha)).Nodup) ∧ ∀ c ∈ cs, c.repository = repo_name := by
  simp only [_fetch_commits_from_api] at h
  rcases hb : api.getBranches repo_name with e | branches
  · rw [hb] at h
    exact absurd h (by simp)
  · rw [hb] at h
    have hcs := Except.ok.inj h
    rw [← hcs]
    exact branchFold_props api repo_name since (until_ + 86400) branches [] (by simp)
      (by simp)

/-- A successful `repoFetch` comes from a successful branch scan. -/
theorem repoFetch_ok_fetch {api : Api} {repo_name : String} {since until_ : ℤ}
    {cs : List CommitData}
    (h : (repoFetch api repo_name since until_).1 = Except.ok cs) :
    (_fetch_commits_from_api api repo_name since until_).1 = Except.ok cs := by
  simp only [repoFetch] at h
  rcases hg : api.getRepo repo_name with e | u
  · rw [hg] at h
    exact absurd h (by simp)
  · rw [hg] at h
    exact h

/-- `_get_repo_commits` without the cache just fetches. -/
theorem getRepoCommits_nocache (api : Api) (cache : Cache) (now since until_ maxAge : ℤ)
    (repo_name : String) :
    _get_repo_commits api cache now repo_name since until_ false maxAge
      = (match repoFetch api repo_name since until_ with
         | (.error _, n) => (([] : List CommitData), cache, n)
         | (.ok cs, n) => (cs, cache, n)) := by
  simp only [_get_repo_commits]
  rcases hrf : repoFetch api repo_name since until_ with ⟨res, n⟩
  cases res with
  | error e => rfl
  | ok cs => rfl

/-- On a miss with a failing fetch, `_get_repo_commits` degrades to `[]` and
leaves the cache unchanged. -/
theorem getRepoCommits_miss_err {api : Api} {cache : Cache} {now since until_ maxAge : ℤ}
    {repo_name : String} {e : GHError}
    (hc : ∀ e2 ∈ cache, (e2.repo == repo_name) = false)
    (herr : (repoFetch api repo_name since until_).1 = Except.error e) :
    _get_repo_commits api cache now repo_name since until_ true maxAge
      = ([], cache, (repoFetch api repo_name since until_).2) := by
  simp only [_get_repo_commits]
  rw [cacheGet_none cache repo_name (isoStr since) (isoStr until_) maxAge now hc]
  rcases hrf : repoFetch api repo_name since until_ with ⟨res, n⟩
  rw [hrf] at herr
  have hres : res = Except.error e := herr
  subst hres
  rfl

/-- The list `_get_repo_commits` returns has distinct SHAs and carries the
repository's name; new cache rows carry the repository's name too. -/
theorem getRepoCommits_props (api : Api) (cache : Cache) (now since until_ maxAge : ℤ)
    (use_cache : Bool) (repo_name : String)
    (hc : ∀ e ∈ cache, (e.repo == repo_name) = false) :
    (((_get_repo_commits api cache now repo_name since until_ use_cache maxAge).1.map
        (fun c => c.sha)).Nodup)
    ∧ (∀ c ∈ (_get_repo_commits api cache now repo_name since until_ use_cache maxAge).1,
        c.repository = repo_name)
    ∧ (∀ e ∈ (_get_repo_commits api cache now repo_name since until_ use_cache maxAge).2.1,
        e ∈ cache ∨ e.repo = repo_name) := by
  cases use_cache with
  | false =>
    rw [getRepoCommits_nocache]
    rcases hrf : repoFetch api repo_name since until_ with ⟨res, n⟩
    cases res with
    | error e =>
      refine ⟨by simp, by simp, ?_⟩
      intro e2 he2
      exact Or.inl he2
    | ok cs =>
      have hfet : (repoFetch api repo_name since until_).1 = Except.ok cs := by
        rw [hrf]
      obtain ⟨p1, p2⟩ := fetch_props api repo_name since until_ (repoFetch_ok_fetch hfet)
      refine ⟨p1, p2, ?_⟩
      intro e2 he2
      exact Or.inl he2
  | true =>
    rcases hrf : repoFetch api repo_name since until_ with ⟨res, n⟩
    cases res with
    | error e =>
      rw [getRepoCommits_miss_err hc (by rw [hrf])]
      refine ⟨by simp, by simp, ?_⟩
      intro e2 he2
      exact Or.inl he2
    | ok cs =>
      have hfet : (repoFetch api repo_name since until_).1 = Except.ok cs := by
        rw [hrf]
      rw [getRepoCommits_miss_ok hc hfet]
      obtain ⟨p1, p2⟩ := fetch_props api repo_name since until_ (repoFetch_ok_fetch hfet)
      refine ⟨p1, p2, ?_⟩
      intro e2 he2
      rcases List.mem_append.mp he2 with he2 | he2
      · exact Or.inl he2
      · simp only [List.mem_singleton] at he2
        subst he2
        exact Or.inr rfl

/-- Across the repository loop, (repository, SHA) pairs stay distinct and every
record is labelled with one of the processed repositories. -/
theorem aux_props (api : Api) (now since until_ maxAge : ℤ) (use_cache : Bool) :
    ∀ (repos : List String) (cache : Cache),
      repos.Nodup → (∀ e ∈ cache, e.repo ∉ repos) →
      (((getCommitsAux api now since until_ use_cache maxAge repos cache).1.map
          (fun c => (c.repository, c.sha))).Nodup)
      ∧ ∀ c ∈ (getCommitsAux api now since until_ use_cache maxAge repos cache).1,
          c.repository ∈ repos := by
  intro repos
  induction repos with
  | nil =>
    intro cache _ _
    constructor
    · simp [getCommitsAux]
    · intro c hcm
      simp [getCommitsAux] at hcm
  | cons r rest ih =>
    intro cache hnd hcinv
    have hcr : ∀ e ∈ cache, (e.repo == r) = false := by
      intro e he
      have hmem := hcinv e he
      simp only [List.mem_cons, not_or] at hmem
      exact beq_eq_false_iff_ne.mpr hmem.1
    obtain ⟨hn1, hn2, hn3⟩ := getRepoCommits_props api cache now since until_ maxAge
      use_cache r hcr
    have hc2 : ∀ e ∈ (_get_repo_commits api cache now r since until_ use_cache maxAge).2.1,
        e.repo ∉ rest := by
      intro e he
      rcases hn3 e he with he2 | he2
      · have hmem := hcinv e he2
        simp only [List.mem_cons, not_or] at hmem
        exact hmem.2
      · rw [he2]
        exact (List.nodup_cons.mp hnd).1
    obtain ⟨ih1, ih2⟩ := ih (_get_repo_commits api cache now r since until_ use_cache maxAge).2.1
      (List.nodup_cons.mp hnd).2 hc2
    simp only [getCommitsAux]
    constructor
    · rw [List.map_append]
      refine List.Nodup.append ?_ ih1 ?_
      · have hmm : (_get_repo_commits api cache now r since until_ use_cache maxAge).1.map
            (fun c => (c.repository, c.sha))
            = ((_get_repo_commits api cache now r since until_ use_cache maxAge).1.map
                (fun c => c.sha)).map (fun s => (r, s)) := by
          rw [List.map_map]
          apply List.map_congr_left
          intro c hcmem
          simp [hn2 c hcmem]
        rw [hmm]
        refine List.Nodup.map ?_ hn1
        intro a b hab
        simpa using hab
      · intro p hp1 hp2
        simp only [List.mem_map] at hp1 hp2
        obtain ⟨c1, hc1m, rfl⟩ := hp1
        obtain ⟨c2, hc2m, hps⟩ := hp2
        have h1r := hn2 c1 hc1m
        have h2r := ih2 c2 hc2m
        have hfst : c2.repository = c1.repository := congrArg Prod.fst hps
        apply (List.nodup_cons.mp hnd).1
        rw [← h1r, ← hfst]
        exact h2r
    · intro c hcm
      rcases List.mem_append.mp hcm with hcm | hcm
      · rw [hn2 c hcm]
        exact List.mem_cons_self _ _
      · exact List.mem_cons_of_mem _ (ih2 c hcm)

/-- C8: the list `get_commits` returns holds at most one record per
(repository, commit SHA) pair — SHAs are deduplicated across the branches of a
repository, and identifiers are unique per repository — and is sorted in
ascending date order across all repositories. -/
theorem claim_C8 (api : Api) (repos : List String) (since until_ now maxAge : ℤ)
    (use_cache : Bool) (cache : Cache)
    (hnd : repos.Nodup) (hcinv : ∀ e ∈ cache, e.repo ∉ repos) :
    (((get_commits api cache now repos since until_ use_cache maxAge).1.map
        (fun c => (c.repository, c.sha))).Nodup)
    ∧ (get_commits api cache now repos since until_ use_cache maxAge).1.Pairwise
        (fun a b => a.date ≤ b.date) := by
  obtain ⟨h1, h2⟩ := aux_props api now since until_ maxAge use_cache repos cache hnd hcinv
  constructor
  · have hperm := List.mergeSort_perm
      (getCommitsAux api now since until_ use_cache maxAge repos cache).1
      (fun a b => a.date ≤ b.date)
    exact ((hperm.map (fun c => (c.repository, c.sha))).nodup_iff).mpr h1
  · have hs := @List.sorted_mergeSort CommitData
      (fun (a b : CommitData) => decide (a.date ≤ b.date))
      (fun a b c hab hbc => by
        simp only [decide_eq_true_eq] at hab hbc ⊢
        exact le_trans hab hbc)
      (fun a b => by
        rcases Int.le_total a.date b.date with h | h
        · simp [h]
        · simp [h])
      (getCommitsAux api now since until_ use_cache maxAge repos cache).1
    exact hs.imp (fun h => by simpa using h)

/-- Witness for C8: one repository with two branches sharing commit `aaa`. -/
theorem claim_C8_witness :
    (((get_commits dupApi [] 0 ["r"] 0 86400 true 24).1.map
        (fun c => (c.repository, c.sha))).Nodup)
    ∧ (get_commits dupApi [] 0 ["r"] 0 86400 true 24).1.Pairwise
        (fun a b => a.date ≤ b.date) :=
  claim_C8 dupApi ["r"] 0 86400 0 24 true [] (by simp) (by simp)
